import Mathlib

/-!
Shallow embedding of the tool subsystem of the simple Go coding agent
(`main.go`): the path filter, the file-oriented tools (`list_files`,
`edit_file`, `grep`, `read_file`), the `execute` tool's result
classification, the dynamic-tool parameter resolution, and one iteration of
the agent conversation loop.  Strings are modelled as Lean `String`
(Go runes are `Char`); the filesystem is a map from path to content plus an
explicit directory tree for the traversal-based tools; external library
behaviour (Go `strings.Replace`, `os/exec`, `filepath.Walk`,
`bufio.Scanner`) is translated from its documented semantics where the
tools rely on it.
-/

set_option linter.unusedVariables false

/-! ## String helpers (Go `strings` package semantics) -/

/-- `startsWith p l` — `l` begins with `p` (Go `strings.HasPrefix` on rune lists). -/
def startsWith : List Char → List Char → Bool
  | [], _ => true
  | _ :: _, [] => false
  | a :: as, b :: bs => a = b && startsWith as bs

/-- `containsSub s p` — `p` occurs as a contiguous segment of `s`
(Go `strings.Contains` on rune lists; the empty pattern occurs everywhere). -/
def containsSub : List Char → List Char → Bool
  | [], p => p.isEmpty
  | s@(_ :: rest), p => startsWith p s || containsSub rest p

/-- Go `strings.Contains` on `String`. -/
def strContains (s sub : String) : Bool := containsSub s.data sub.data

/-- Go `strings.HasPrefix` on `String`. -/
def strStarts (s pre : String) : Bool := startsWith pre.data s.data

/-- Split a rune list on a separator character (every occurrence; the
result is nonempty and its parts contain no separator). -/
def splitOnChar (sep : Char) : List Char → List (List Char)
  | [] => [[]]
  | c :: rest =>
    if c = sep then [] :: splitOnChar sep rest
    else
      match splitOnChar sep rest with
      | [] => [[c]]
      | h :: t => (c :: h) :: t

/-- Go `filepath.Base` restricted to the clean, slash-separated relative
paths produced by the walks below (nonempty, no trailing slash):
the last path element, `"."` for the empty path. -/
def pathBase (p : String) : String :=
  if p = "" then "." else ⟨(splitOnChar '/' p.data).getLastD p.data⟩

/-- Join a relative prefix and an entry name the way `filepath.Walk` paths
relativised by `filepath.Rel` compose. -/
def joinRel (pre name : String) : String :=
  if pre = "" then name else pre ++ "/" ++ name

/-- One fuel-indexed step tower for Go `strings.Replace(s, old, new, -1)`
on rune lists.  Documented Go semantics: replaces non-overlapping
occurrences of `old` left to right; if `old` is empty it matches at the
beginning of the string and after each rune, yielding `len(s)+1`
insertions of `new`.  Fuel `≥ s.length + 1` is always sufficient. -/
def goReplaceF : Nat → List Char → List Char → List Char → List Char
  | 0, s, _, _ => s
  | fuel + 1, s, old, new =>
    match old with
    | [] =>
      match s with
      | [] => new
      | c :: rest => new ++ c :: goReplaceF fuel rest [] new
    | _ :: _ =>
      match s with
      | [] => []
      | c :: rest =>
        if startsWith old (c :: rest) then
          new ++ goReplaceF fuel ((c :: rest).drop old.length) old new
        else
          c :: goReplaceF fuel rest old new

/-- Go `strings.Replace(s, old, new, -1)` on `String`. -/
def goStringsReplace (s old new : String) : String :=
  ⟨goReplaceF (s.data.length + 1) s.data old.data new.data⟩

/-- `interleave new s` — `s` with `new` inserted after every character;
`new ++ interleave new s` is the result of replacing the empty string by
`new` in `s` (insertion before every character and once at the end). -/
def interleave (new : List Char) : List Char → List Char
  | [] => []
  | c :: rest => c :: (new ++ interleave new rest)

/-- Strip one trailing carriage return (Go `bufio.ScanLines`'s
`dropCR`). -/
def stripCR (l : List Char) : List Char :=
  match l.getLast? with
  | some '\x0d' => l.dropLast
  | _ => l

/-- Go `bufio.Scanner` with `ScanLines`: splits on `'\n'`, strips a
trailing carriage return from each line, and does not report a final empty
line when the data ends in a newline. -/
def scanLines (s : String) : List String :=
  let parts := (splitOnChar '\n' s.data).map stripCR
  let parts :=
    match parts.getLast? with
    | some [] => parts.dropLast
    | _ => parts
  parts.map (fun l => ⟨l⟩)

/-! ## PathFilter (`DefaultPathFilter`) -/

/-- `DefaultPathFilter` struct from `main.go`. -/
structure DefaultPathFilter where
  IncludeGit : Bool
  IncludeHidden : Bool
  CustomExcludes : List String
deriving Repr, DecidableEq

/-- `NewDefaultPathFilter` from `main.go`: the filter with the default
exclude set. -/
def NewDefaultPathFilter : DefaultPathFilter :=
  { IncludeGit := false
    IncludeHidden := false
    CustomExcludes := ["node_modules", "vendor", "dist", "build", ".venv", "__pycache__"] }

/-- `DefaultPathFilter.ShouldInclude` from `main.go` (the path separator is
`/`). -/
def DefaultPathFilter.ShouldInclude (f : DefaultPathFilter) (path : String) (isDir : Bool) : Bool :=
  let Base := pathBase path
  if !f.IncludeGit && (Base == ".git" || strContains path "/.git/") then false
  else if !f.IncludeHidden && strStarts Base "." && Base != "." then false
  else if f.CustomExcludes.any (fun exclude =>
      Base == exclude || strContains path ("/" ++ exclude ++ "/")) then false
  else true

/-- `DefaultPathFilter.ShouldSkipDir` from `main.go`. -/
def DefaultPathFilter.ShouldSkipDir (f : DefaultPathFilter) (path : String) : Bool :=
  let Base := pathBase path
  if !f.IncludeGit && Base == ".git" then true
  else if !f.IncludeHidden && strStarts Base "." && Base != "." then true
  else if f.CustomExcludes.any (fun exclude => Base == exclude) then true
  else false

/-! ## Directory trees and `filepath.Walk` -/

/-- A directory tree entry: a file with its content, or a directory with
its children (listed in the lexical order `filepath.Walk` visits them). -/
inductive FSEntry where
  | file (name : String) (content : String)
  | dir (name : String) (children : List FSEntry)
deriving Repr

mutual

/-- The body of the `filepath.Walk` callback in `ListFiles` (`main.go`),
applied to one entry with relative path `joinRel pre name`: a directory for
which `ShouldSkipDir` holds is pruned whole (`filepath.SkipDir`); an
included directory is reported with a trailing `/`; included files are
reported as-is. -/
def listFilesWalk (filter : DefaultPathFilter) (pre : String) : FSEntry → List String
  | .file name _content =>
    let relPath := joinRel pre name
    if filter.ShouldInclude relPath false then [relPath] else []
  | .dir name children =>
    let relPath := joinRel pre name
    if filter.ShouldSkipDir relPath then []
    else
      (if filter.ShouldInclude relPath true then [relPath ++ "/"] else [])
        ++ listFilesWalkList filter relPath children

/-- `listFilesWalk` over a list of sibling entries, in visit order. -/
def listFilesWalkList (filter : DefaultPathFilter) (pre : String) : List FSEntry → List String
  | [] => []
  | e :: rest => listFilesWalk filter pre e ++ listFilesWalkList filter pre rest

end

/-- `ListFilesInput` from `main.go`; omitted JSON fields decode to the Go
zero values (`""`, `false`, `nil`). -/
structure ListFilesInput where
  path : String
  include_git : Bool
  include_hidden : Bool
  exclude : List String
deriving Repr, DecidableEq

/-- `ListFiles` from `main.go` on an already-decoded input.  The root
directory (Go: `"."` or `input.Path`) is the `root` entry list; the final
`json.Marshal` of the collected array is dropped (the path list itself is
returned).  Note the filter is built directly from the input fields:
`CustomExcludes` is exactly `listFilesInput.Exclude`. -/
def ListFiles (listFilesInput : ListFilesInput) (root : List FSEntry) : List String :=
  let filter : DefaultPathFilter :=
    { IncludeGit := listFilesInput.include_git
      IncludeHidden := listFilesInput.include_hidden
      CustomExcludes := listFilesInput.exclude }
  listFilesWalkList filter "" root

/-- The tree containing a single file `node_modules/x.js`. -/
def nodeModulesTree : List FSEntry :=
  [.dir "node_modules" [.file "x.js" "console.log(1);"]]

/-! ## Grep -/

/-- `GrepInput` from `main.go`; omitted JSON fields decode to zero values. -/
structure GrepInput where
  pattern : String
  path : String
  include_git : Bool
  include_hidden : Bool
  exclude : List String
deriving Repr, DecidableEq

/-- The `Match` record `Grep` collects (`main.go`): file, 1-based line
number, line text. -/
structure GrepMatch where
  file : String
  line : Nat
  content : String
deriving Repr, DecidableEq

/-- The two non-error outcomes of `Grep`: the literal "No matches found."
reply, or the collected match list (its `json.MarshalIndent` rendering is
dropped). -/
inductive GrepOutput where
  | noMatches
  | matchList (ms : List GrepMatch)
deriving Repr, DecidableEq

/-- The per-file match collection of `Grep` (`main.go`): scan the lines,
keeping `(relPath, lineNum, line)` for each line the compiled regex
matches. -/
def grepFileMatches (re : String → Bool) (relPath : String) (content : String) : List GrepMatch :=
  (scanLines content).enum.filterMap fun li =>
    if re li.2 then some ⟨relPath, li.1 + 1, li.2⟩ else none

mutual

/-- The body of the `filepath.Walk` callback in `Grep` (`main.go`):
directories for which `ShouldSkipDir` holds are pruned; directories and
excluded files contribute nothing; a file whose first byte is a null byte
is skipped as binary; other files contribute their line matches. -/
def grepWalk (filter : DefaultPathFilter) (re : String → Bool) (pre : String) :
    FSEntry → List GrepMatch
  | .file name content =>
    let relPath := joinRel pre name
    if !filter.ShouldInclude relPath false then []
    else if content.data.head? = some (Char.ofNat 0) then []
    else grepFileMatches re relPath content
  | .dir name children =>
    let relPath := joinRel pre name
    if filter.ShouldSkipDir relPath then []
    else grepWalkList filter re relPath children

/-- `grepWalk` over sibling entries, in visit order. -/
def grepWalkList (filter : DefaultPathFilter) (re : String → Bool) (pre : String) :
    List FSEntry → List GrepMatch
  | [] => []
  | e :: rest => grepWalk filter re pre e ++ grepWalkList filter re pre rest

end

/-- `Grep` from `main.go` on an already-decoded input.  `compile` stands
for Go `regexp.Compile` (`none` = compile error); the root directory is the
`root` entry list. -/
def Grep (grepInput : GrepInput) (compile : String → Option (String → Bool))
    (root : List FSEntry) : Except String GrepOutput :=
  if grepInput.pattern = "" then .error "pattern cannot be empty"
  else
    match compile grepInput.pattern with
    | none => .error "invalid regular expression"
    | some regex =>
      let filter : DefaultPathFilter :=
        { IncludeGit := grepInput.include_git
          IncludeHidden := grepInput.include_hidden
          CustomExcludes := grepInput.exclude }
      let ms := grepWalkList filter regex "" root
      if ms = [] then .ok .noMatches
      else .ok (.matchList ms)

/-! ## EditFile -/

/-- The filesystem as the file-oriented tools see it: a map from path to
file content (`none` = no file at that path; directories are implicit). -/
def FS : Type := String → Option String

/-- The empty filesystem. -/
def fsEmpty : FS := fun _ => none

/-- `EditFileInput` from `main.go`. -/
structure EditFileInput where
  path : String
  old_str : String
  new_str : String
deriving Repr, DecidableEq

/-- `createNewFile` from `main.go`: writes `content` at `filePath`.  The
`path.Dir`/`os.MkdirAll` step creates any missing parent directories; in
the path-to-content map model directories are implicit, so it has no
observable effect, and `os.WriteFile` is modelled as always succeeding. -/
def createNewFile (filePath content : String) (fs : FS) : Except String String × FS :=
  (.ok ("Successfully created file " ++ filePath),
    fun p => if p = filePath then some content else fs p)

/-- `EditFile` from `main.go` on an already-decoded input.  A read failure
in the map model is exactly "no file at this path", for which Go's
`os.IsNotExist` holds; the returned `FS` is the filesystem after the call. -/
def EditFile (editFileInput : EditFileInput) (fs : FS) : Except String String × FS :=
  if editFileInput.path = "" ∨ editFileInput.old_str = editFileInput.new_str then
    (.error "invalid input parameters", fs)
  else
    match fs editFileInput.path with
    | none =>
      if editFileInput.old_str = "" then
        createNewFile editFileInput.path editFileInput.new_str fs
      else
        (.error "no such file or directory", fs)
    | some oldContent =>
      let newContent := goStringsReplace oldContent editFileInput.old_str editFileInput.new_str
      if oldContent = newContent ∧ editFileInput.old_str ≠ "" then
        (.error "old_str not found in file", fs)
      else
        (.ok "OK", fun p => if p = editFileInput.path then some newContent else fs p)

/-! ## ExecuteCommand -/

/-- `ExecuteCommandInput` from `main.go`; an omitted `timeout` decodes to
`0`. -/
structure ExecuteCommandInput where
  command : String
  timeout : Int
deriving Repr, DecidableEq

/-- The error `cmd.Run` can return, as `ExecuteCommand` discriminates it:
an `*exec.ExitError` carrying `ExitCode()`, or any other error. -/
inductive RunErr where
  | exitError (code : Int)
  | otherError
deriving Repr, DecidableEq

/-- What one `cmd.Run` under a timeout context yields, as observed by
`ExecuteCommand`: the error (if any), the captured stdout and stderr, and
whether `ctx.Err()` is `context.DeadlineExceeded` afterwards. -/
structure RunOutcome where
  err : Option RunErr
  stdout : String
  stderr : String
  ctxDeadlineExceeded : Bool
deriving Repr, DecidableEq

/-- The `CommandResult` record `ExecuteCommand` marshals (`main.go`). -/
structure CommandResult where
  stdout : String
  stderr : String
  exit_code : Int
deriving Repr, DecidableEq

/-- `ExecuteCommand` from `main.go` on an already-decoded input.  `run`
stands for launching the shell command with the given timeout (seconds)
under a deadline context; the final `json.MarshalIndent` of the result
record is dropped.  The error discrimination mirrors the source order:
an `*exec.ExitError` is taken as the exit code first, the deadline is
consulted only for other errors. -/
def ExecuteCommand (executeCommandInput : ExecuteCommandInput)
    (run : String → Int → RunOutcome) : Except String CommandResult :=
  if executeCommandInput.command = "" then .error "command cannot be empty"
  else
    let timeout : Int := if executeCommandInput.timeout > 0 then executeCommandInput.timeout else 30
    let timeout : Int := if timeout > 300 then 300 else timeout
    let o := run executeCommandInput.command timeout
    match o.err with
    | none => .ok ⟨o.stdout, o.stderr, 0⟩
    | some (.exitError code) => .ok ⟨o.stdout, o.stderr, code⟩
    | some .otherError =>
      if o.ctxDeadlineExceeded then
        .error ("command timed out after " ++ toString timeout ++ " seconds")
      else .error "failed to execute command"

/-- Modelled from Go `os/exec` semantics (all Go versions): a command that
launched and was killed because its context deadline expired is reported by
`cmd.Run` as an `*exec.ExitError` — the process state is "killed by
SIGKILL", `state.Success()` is false, and `ProcessState.ExitCode()` is `-1`
for a signal-terminated process — while `ctx.Err()` is
`context.DeadlineExceeded`.  (`ctx.Err()` is only preferred by `Wait` when
the process itself exits successfully.)  A killed `sleep` produced no
output. -/
def timedOutRun : RunOutcome :=
  { err := some (.exitError (-1)), stdout := "", stderr := "", ctxDeadlineExceeded := true }

/-! ## Dynamic tools: parameter resolution -/

/-- `ToolParameter` from `main.go`. -/
structure ToolParameter where
  name : String
  description : String
  required : Bool
  default : String
deriving Repr, DecidableEq

/-- The "Apply defaults and check required parameters" loop of the dynamic
tool executor (`main.go`): for each declared parameter in order, bind the
supplied value if present, else the declared default if non-empty, else
fail if the parameter is required, else bind nothing.  `supplied` is the
decoded call input (declared dynamic-tool parameters are all strings);
the resulting bindings are the `templateData` entries in declaration
order. -/
def resolveParams : List ToolParameter → (String → Option String) →
    Except String (List (String × String))
  | [], _ => .ok []
  | param :: rest, supplied =>
    match supplied param.name with
    | some value => (resolveParams rest supplied).map (fun l => (param.name, value) :: l)
    | none =>
      if param.default ≠ "" then
        (resolveParams rest supplied).map (fun l => (param.name, param.default) :: l)
      else if param.required then
        .error ("missing required parameter: " ++ param.name)
      else
        resolveParams rest supplied

/-! ## ReadFile and tool dispatch -/

/-- `ReadFileInput` from `main.go`. -/
structure ReadFileInput where
  path : String
deriving Repr, DecidableEq

/-- What one tool function call does, seen from `executeTool`: a Go
`panic`, an error return, or a successful string result. -/
inductive ToolOutcome where
  | panics
  | errors (msg : String)
  | ok (response : String)
deriving Repr, DecidableEq

/-- `ReadFile` from `main.go`.  `parsed` is the result of
`json.Unmarshal` of the raw input into `ReadFileInput` (`.error` = the
unmarshal error message): on unmarshal failure the source calls
`panic(err)`.  A missing file is the `os.ReadFile` error return (its
OS-generated message is abstracted to a fixed string). -/
def ReadFile (parsed : Except String ReadFileInput) (fs : FS) : ToolOutcome :=
  match parsed with
  | .error _err => .panics
  | .ok readFileInput =>
    match fs readFileInput.path with
    | none => .errors ("open " ++ readFileInput.path ++ ": no such file or directory")
    | some content => .ok content

/-- What the process observes after `Agent.executeTool` handles one tool
function return: a tool-result content block, or a crash. -/
inductive DispatchOutcome where
  | processCrash
  | result (payload : String) (isError : Bool)
deriving Repr, DecidableEq

/-- The tail of `Agent.executeTool` (`main.go`) applied to a tool
function's outcome: an error return becomes an error-flagged tool-result
block, a response becomes a plain block.  A Go `panic` inside the tool
function propagates — neither `executeTool` nor `Agent.Run` nor `main`
`recover`s — so it crashes the process. -/
def executeToolOutcome (outcome : ToolOutcome) : DispatchOutcome :=
  match outcome with
  | .panics => .processCrash
  | .errors msg => .result msg true
  | .ok response => .result response false

/-! ## The conversation loop (`Agent.Run`), one iteration -/

/-- Message roles (`anthropic.MessageParam`). -/
inductive Role where
  | user
  | assistant
deriving Repr, DecidableEq

/-- Content blocks of a model response (`message.Content` in `Agent.Run`):
text, or a tool-call request. -/
inductive ContentBlock where
  | text (s : String)
  | toolUse (id name input : String)
deriving Repr, DecidableEq

/-- Content blocks of a conversation message
(`anthropic.ContentBlockParamUnion`): text, a tool-call request echoed into
the assistant message, or a tool result. -/
inductive ParamBlock where
  | textB (s : String)
  | toolUseB (id name input : String)
  | toolResultB (id content : String) (isError : Bool)
deriving Repr, DecidableEq

/-- A conversation message (`anthropic.MessageParam`). -/
structure MessageParam where
  role : Role
  content : List ParamBlock
deriving Repr, DecidableEq

/-- A model response (`anthropic.Message`), reduced to its content
blocks. -/
structure APIMessage where
  content : List ContentBlock
deriving Repr, DecidableEq

/-- `message.ToParam()`: the assistant response re-encoded as a
conversation message. -/
def toParam (m : APIMessage) : MessageParam :=
  ⟨.assistant,
    m.content.map fun b =>
      match b with
      | .text s => .textB s
      | .toolUse id name input => .toolUseB id name input⟩

/-- The `for _, content := range message.Content` loop of `Agent.Run`:
text blocks are printed (a side effect, dropped here); each `tool_use`
block is dispatched through `exec` (standing for `a.executeTool`) and its
result block appended, in emission order. -/
def collectToolResults (exec : String → String → String → ParamBlock) :
    List ContentBlock → List ParamBlock
  | [] => []
  | .text _ :: rest => collectToolResults exec rest
  | .toolUse id name input :: rest =>
    exec id name input :: collectToolResults exec rest

/-- The `tool_use` payloads of a response, in order. -/
def toolUses : List ContentBlock → List (String × String × String)
  | [] => []
  | .text _ :: rest => toolUses rest
  | .toolUse id name input :: rest => (id, name, input) :: toolUses rest

/-- What one iteration of the `for` loop in `Agent.Run` does. -/
inductive StepResult where
  | next (conversation : List MessageParam) (readUserInput : Bool)
  | terminated
  | fatal (err : String)
deriving Repr, DecidableEq

/-- One iteration of the `for` loop in `Agent.Run` (`main.go`), starting
from `(conversation, readUserInput)`.  `getUserMessage` is the user-input
oracle (`none` = end of input), `inference` stands for `a.runInference`
(`.error` = model-call failure, returned from `Run`), `exec` for
`a.executeTool`.  When the response carried tool calls the iteration ends
with `readUserInput = false`, so the next iteration skips the user prompt
and goes straight back to the model call. -/
def runStep (getUserMessage : Option String)
    (inference : List MessageParam → Except String APIMessage)
    (exec : String → String → String → ParamBlock)
    (conversation : List MessageParam) (readUserInput : Bool) : StepResult :=
  let conv? : Option (List MessageParam) :=
    if readUserInput then
      match getUserMessage with
      | none => none
      | some userInput => some (conversation ++ [⟨.user, [.textB userInput]⟩])
    else some conversation
  match conv? with
  | none => .terminated
  | some conversation =>
    match inference conversation with
    | .error err => .fatal err
    | .ok message =>
      let conversation := conversation ++ [toParam message]
      let toolResults := collectToolResults exec message.content
      if toolResults = [] then .next conversation true
      else .next (conversation ++ [⟨.user, toolResults⟩]) false

/-! ## Helper lemmas -/

theorem string_data_ne_nil {s : String} (h : s ≠ "") : s.data ≠ [] :=
  fun hd => h (String.ext hd)

/-- If `old` is nonempty and occurs nowhere in `s`, `strings.Replace`
leaves `s` unchanged (any fuel). -/
theorem goReplaceF_of_not_contains (old new : List Char) :
    ∀ (fuel : Nat) (s : List Char), old ≠ [] → containsSub s old = false →
      goReplaceF fuel s old new = s := by
  intro fuel
  induction fuel with
  | zero => intro s _ _; rfl
  | succ f ih =>
    intro s hold hc
    match old, s with
    | [], _ => exact absurd rfl hold
    | o :: os, [] => rfl
    | o :: os, c :: rest =>
      simp only [containsSub, Bool.or_eq_false_iff] at hc
      rw [goReplaceF]
      rw [if_neg (by simp [hc.1])]
      rw [ih rest hold hc.2]

/-- Replacing the empty string by `new` inserts `new` before every
character and once at the end (sufficient fuel). -/
theorem goReplaceF_empty_old (new : List Char) :
    ∀ (fuel : Nat) (s : List Char), s.length + 1 ≤ fuel →
      goReplaceF fuel s [] new = new ++ interleave new s := by
  intro fuel
  induction fuel with
  | zero => intro s h; omega
  | succ f ih =>
    intro s h
    match s with
    | [] => simp [goReplaceF, interleave]
    | c :: rest =>
      rw [goReplaceF, ih rest (by simp at h; omega)]
      simp [interleave]

theorem goStringsReplace_not_contains (s old new : String)
    (hold : old ≠ "") (hc : containsSub s.data old.data = false) :
    goStringsReplace s old new = s := by
  unfold goStringsReplace
  rw [goReplaceF_of_not_contains old.data new.data _ s.data (string_data_ne_nil hold) hc]

theorem goStringsReplace_empty_old (s new : String) :
    goStringsReplace s "" new = ⟨new.data ++ interleave new.data s.data⟩ := by
  unfold goStringsReplace
  rw [goReplaceF_empty_old new.data _ s.data (Nat.le_refl _)]

/-- The tool-result collection loop produces one block per `tool_use`
block, in emission order. -/
theorem collectToolResults_eq (exec : String → String → String → ParamBlock) :
    ∀ (bs : List ContentBlock),
      collectToolResults exec bs = (toolUses bs).map fun t => exec t.1 t.2.1 t.2.2 := by
  intro bs
  induction bs with
  | nil => rfl
  | cons b rest ih => cases b <;> simp [collectToolResults, toolUses, ih]

/-- Every binding produced by the resolution loop is named after some
declared parameter. -/
theorem resolveParams_mem_name (supplied : String → Option String) :
    ∀ (ps : List ToolParameter) (l : List (String × String)),
      resolveParams ps supplied = .ok l → ∀ x ∈ l, ∃ q ∈ ps, q.name = x.1 := by
  intro ps
  induction ps with
  | nil =>
    intro l h x hx
    simp [resolveParams] at h
    subst h
    simp at hx
  | cons p rest ih =>
    intro l h x hx
    rw [resolveParams] at h
    cases hs : supplied p.name with
    | some v =>
      rw [hs] at h
      cases hrec : resolveParams rest supplied with
      | error e => rw [hrec] at h; simp [Except.map] at h
      | ok l' =>
        rw [hrec] at h
        simp [Except.map] at h
        subst h
        rcases List.mem_cons.mp hx with hx | hx
        · exact ⟨p, by simp, by simp [hx]⟩
        · obtain ⟨q, hq, hqn⟩ := ih l' hrec x hx
          exact ⟨q, by simp [hq], hqn⟩
    | none =>
      rw [hs] at h
      by_cases hd : p.default ≠ ""
      · rw [if_pos hd] at h
        cases hrec : resolveParams rest supplied with
        | error e => rw [hrec] at h; simp [Except.map] at h
        | ok l' =>
          rw [hrec] at h
          simp [Except.map] at h
          subst h
          rcases List.mem_cons.mp hx with hx | hx
          · exact ⟨p, by simp, by simp [hx]⟩
          · obtain ⟨q, hq, hqn⟩ := ih l' hrec x hx
            exact ⟨q, by simp [hq], hqn⟩
      · rw [if_neg hd] at h
        cases hreq : p.required with
        | true => rw [hreq] at h; simp at h
        | false =>
          rw [hreq] at h
          simp only [Bool.false_eq_true, if_false] at h
          obtain ⟨q, hq, hqn⟩ := ih l h x hx
          exact ⟨q, by simp [hq], hqn⟩

/-- A parameter supplied in the call input is bound to the supplied
value. -/
theorem resolveParams_supplied (supplied : String → Option String) :
    ∀ (ps : List ToolParameter) (p : ToolParameter), p ∈ ps →
      ∀ v, supplied p.name = some v →
        ∀ l, resolveParams ps supplied = .ok l → (p.name, v) ∈ l := by
  intro ps
  induction ps with
  | nil => intro p hp; simp at hp
  | cons q rest ih =>
    intro p hp v hv l h
    rw [resolveParams] at h
    rcases List.mem_cons.mp hp with hpq | hp'
    · subst hpq
      rw [hv] at h
      cases hrec : resolveParams rest supplied with
      | error e => rw [hrec] at h; simp [Except.map] at h
      | ok l' => rw [hrec] at h; simp [Except.map] at h; subst h; simp
    · cases hs : supplied q.name with
      | some w =>
        rw [hs] at h
        cases hrec : resolveParams rest supplied with
        | error e => rw [hrec] at h; simp [Except.map] at h
        | ok l' =>
          rw [hrec] at h; simp [Except.map] at h; subst h
          exact List.mem_cons_of_mem _ (ih p hp' v hv l' hrec)
      | none =>
        rw [hs] at h
        by_cases hd : q.default ≠ ""
        · rw [if_pos hd] at h
          cases hrec : resolveParams rest supplied with
          | error e => rw [hrec] at h; simp [Except.map] at h
          | ok l' =>
            rw [hrec] at h; simp [Except.map] at h; subst h
            exact List.mem_cons_of_mem _ (ih p hp' v hv l' hrec)
        · rw [if_neg hd] at h
          cases hreq : q.required with
          | true => rw [hreq] at h; simp at h
          | false =>
            rw [hreq] at h
            simp only [Bool.false_eq_true, if_false] at h
            exact ih p hp' v hv l h

/-- A parameter not supplied whose declared default is non-empty is bound
to the default. -/
theorem resolveParams_default (supplied : String → Option String) :
    ∀ (ps : List ToolParameter) (p : ToolParameter), p ∈ ps →
      supplied p.name = none → p.default ≠ "" →
        ∀ l, resolveParams ps supplied = .ok l → (p.name, p.default) ∈ l := by
  intro ps
  induction ps with
  | nil => intro p hp; simp at hp
  | cons q rest ih =>
    intro p hp hv hd l h
    rw [resolveParams] at h
    rcases List.mem_cons.mp hp with hpq | hp'
    · subst hpq
      rw [hv, if_pos hd] at h
      cases hrec : resolveParams rest supplied with
      | error e => rw [hrec] at h; simp [Except.map] at h
      | ok l' => rw [hrec] at h; simp [Except.map] at h; subst h; simp
    · cases hs : supplied q.name with
      | some w =>
        rw [hs] at h
        cases hrec : resolveParams rest supplied with
        | error e => rw [hrec] at h; simp [Except.map] at h
        | ok l' =>
          rw [hrec] at h; simp [Except.map] at h; subst h
          exact List.mem_cons_of_mem _ (ih p hp' hv hd l' hrec)
      | none =>
        rw [hs] at h
        by_cases hqd : q.default ≠ ""
        · rw [if_pos hqd] at h
          cases hrec : resolveParams rest supplied with
          | error e => rw [hrec] at h; simp [Except.map] at h
          | ok l' =>
            rw [hrec] at h; simp [Except.map] at h; subst h
            exact List.mem_cons_of_mem _ (ih p hp' hv hd l' hrec)
        · rw [if_neg hqd] at h
          cases hreq : q.required with
          | true => rw [hreq] at h; simp at h
          | false =>
            rw [hreq] at h
            simp only [Bool.false_eq_true, if_false] at h
            exact ih p hp' hv hd l h

/-- A required parameter that is neither supplied nor defaulted makes the
whole resolution fail with a missing-required-parameter error. -/
theorem resolveParams_required_missing (supplied : String → Option String) :
    ∀ (ps : List ToolParameter) (p : ToolParameter), p ∈ ps →
      supplied p.name = none → p.default = "" → p.required = true →
        ∃ q, resolveParams ps supplied = .error ("missing required parameter: " ++ q) := by
  intro ps
  induction ps with
  | nil => intro p hp; simp at hp
  | cons q rest ih =>
    intro p hp hv hd hreq
    rw [resolveParams]
    rcases List.mem_cons.mp hp with hpq | hp'
    · subst hpq
      rw [hv, if_neg (by simp [hd]), hreq]
      exact ⟨p.name, rfl⟩
    · obtain ⟨nm, herr⟩ := ih p hp' hv hd hreq
      cases hs : supplied q.name with
      | some w => rw [herr]; exact ⟨nm, rfl⟩
      | none =>
        by_cases hqd : q.default ≠ ""
        · rw [if_pos hqd, herr]; exact ⟨nm, rfl⟩
        · rw [if_neg hqd]
          cases hqreq : q.required with
          | true => exact ⟨q.name, rfl⟩
          | false =>
            simp only [Bool.false_eq_true, if_false]
            exact ⟨nm, herr⟩

/-- An optional parameter that is neither supplied nor defaulted is
omitted from the bindings (parameter names assumed pairwise distinct, as a
template data map keys them by name). -/
theorem resolveParams_omitted (supplied : String → Option String) :
    ∀ (ps : List ToolParameter), (ps.map (fun q => q.name)).Nodup →
      ∀ (p : ToolParameter), p ∈ ps →
      supplied p.name = none → p.default = "" → p.required = false →
        ∀ l, resolveParams ps supplied = .ok l → ∀ v, (p.name, v) ∉ l := by
  intro ps
  induction ps with
  | nil => intro _ p hp; simp at hp
  | cons q rest ih =>
    intro hnodup p hp hv hd hreq l h v hmem
    have hnodup' : (rest.map (fun q => q.name)).Nodup := (List.nodup_cons.mp hnodup).2
    have hqnotin : q.name ∉ rest.map (fun q => q.name) := (List.nodup_cons.mp hnodup).1
    rw [resolveParams] at h
    rcases List.mem_cons.mp hp with hpq | hp'
    · subst hpq
      rw [hv, if_neg (by simp [hd]), hreq] at h
      simp only [Bool.false_eq_true, if_false] at h
      obtain ⟨r, hr, hrn⟩ := resolveParams_mem_name supplied rest l h (p.name, v) hmem
      have hrmem : r.name ∈ rest.map (fun q => q.name) := List.mem_map_of_mem _ hr
      rw [hrn] at hrmem
      exact hqnotin hrmem
    · have hpn : p.name ∈ rest.map (fun q => q.name) := List.mem_map_of_mem _ hp'
      have hqp : q.name ≠ p.name := fun he => hqnotin (he ▸ hpn)
      cases hs : supplied q.name with
      | some w =>
        rw [hs] at h
        cases hrec : resolveParams rest supplied with
        | error e => rw [hrec] at h; simp [Except.map] at h
        | ok l' =>
          rw [hrec] at h; simp [Except.map] at h; subst h
          rcases List.mem_cons.mp hmem with hx | hx
          · exact hqp (by injection hx with h1 _; exact h1.symm)
          · exact ih hnodup' p hp' hv hd hreq l' hrec v hx
      | none =>
        rw [hs] at h
        by_cases hqd : q.default ≠ ""
        · rw [if_pos hqd] at h
          cases hrec : resolveParams rest supplied with
          | error e => rw [hrec] at h; simp [Except.map] at h
          | ok l' =>
            rw [hrec] at h; simp [Except.map] at h; subst h
            rcases List.mem_cons.mp hmem with hx | hx
            · exact hqp (by injection hx with h1 _; exact h1.symm)
            · exact ih hnodup' p hp' hv hd hreq l' hrec v hx
        · rw [if_neg hqd] at h
          cases hqreq : q.required with
          | true => rw [hqreq] at h; simp at h
          | false =>
            rw [hqreq] at h
            simp only [Bool.false_eq_true, if_false] at h
            exact ih hnodup' p hp' hv hd hreq l h v hmem

/-! ## Claim theorems -/

/-- C1: on a tree containing `node_modules/x.js`, `ListFiles` with the
default input (no `include_git`, no `include_hidden`, no explicit exclude
list, so `CustomExcludes` is the decoded `nil`) returns paths under
`node_modules` — the default exclude set of `NewDefaultPathFilter` is never
consulted by `ListFiles`, though the same walk under `NewDefaultPathFilter`
would prune the directory whole. -/
theorem listFiles_default_input_keeps_node_modules :
    ListFiles ⟨"", false, false, []⟩ nodeModulesTree = ["node_modules/", "node_modules/x.js"]
    ∧ listFilesWalkList NewDefaultPathFilter "" nodeModulesTree = [] := by
  constructor <;> decide

/-- C2: an `execute` invocation whose command launches and is killed at the
deadline (the `cmd.Run` outcome modelled by `timedOutRun`) is returned as a
*successful* result with exit code `-1`, not as the timeout error: the
`*exec.ExitError` branch is checked before `ctx.Err()`, so the
timed-out-command error path is unreachable for a launched command. -/
theorem executeCommand_timeout_reported_as_success :
    ExecuteCommand ⟨"sleep 5", 1⟩ (fun _ _ => timedOutRun) = .ok ⟨"", "", -1⟩ := by
  rfl

/-- C3: a `read_file` invocation whose raw input fails to unmarshal is not
surfaced as an error-flagged tool result — `ReadFile` calls `panic(err)`,
and with no `recover` on the path through `executeTool`, `Run` and `main`,
the panic terminates the conversation loop and the process. -/
theorem readFile_parse_failure_crashes_process :
    executeToolOutcome
      (ReadFile
        (.error "json: cannot unmarshal number into Go struct field ReadFileInput.path of type string")
        fsEmpty)
      = .processCrash := by
  rfl

/-- C4: an `execute` invocation whose command launches and exits with a
non-zero code `n` before the deadline returns a successful (non-error)
result whose exit code field is `n`, with the captured stdout and stderr. -/
theorem executeCommand_nonzero_exit_is_success
    (executeCommandInput : ExecuteCommandInput) (n : Int) (out errOut : String)
    (hc : executeCommandInput.command ≠ "") (hn : n ≠ 0) :
    ExecuteCommand executeCommandInput (fun _ _ => ⟨some (.exitError n), out, errOut, false⟩)
      = .ok ⟨out, errOut, n⟩ := by
  unfold ExecuteCommand
  rw [if_neg hc]

/-- Witness for C4 at the spec's example `exit 3`. -/
theorem executeCommand_nonzero_exit_is_success_witness :
    ExecuteCommand ⟨"exit 3", 0⟩ (fun _ _ => ⟨some (.exitError 3), "", "", false⟩)
      = .ok ⟨"", "", 3⟩ :=
  executeCommand_nonzero_exit_is_success ⟨"exit 3", 0⟩ 3 "" "" (by decide) (by decide)

/-- C5: an `edit_file` call against an existing file with a non-empty
`old_str` that occurs nowhere in the file's content fails with an error and
leaves the filesystem (in particular that file's content) unchanged —
either through the invalid-input guard or through the
`old_str not found in file` branch, both of which return before any
write. -/
theorem editFile_missing_old_str_fails_unchanged
    (editFileInput : EditFileInput) (fs : FS) (content : String)
    (hfile : fs editFileInput.path = some content)
    (hold : editFileInput.old_str ≠ "")
    (hmiss : containsSub content.data editFileInput.old_str.data = false) :
    (∃ e, (EditFile editFileInput fs).1 = .error e) ∧ (EditFile editFileInput fs).2 = fs := by
  unfold EditFile
  by_cases hp : editFileInput.path = "" ∨ editFileInput.old_str = editFileInput.new_str
  · rw [if_pos hp]
    exact ⟨⟨"invalid input parameters", rfl⟩, rfl⟩
  · rw [if_neg hp]
    simp only [hfile]
    have hrep : goStringsReplace content editFileInput.old_str editFileInput.new_str = content :=
      goStringsReplace_not_contains content _ _ hold hmiss
    rw [if_pos ⟨hrep.symm, hold⟩]
    exact ⟨⟨"old_str not found in file", rfl⟩, rfl⟩

/-- Witness for C5: `old_str = "xyz"` occurs nowhere in `"hello"`. -/
theorem editFile_missing_old_str_fails_unchanged_witness :
    (∃ e, (EditFile ⟨"f.txt", "xyz", "q"⟩
        (fun p => if p = "f.txt" then some "hello" else none)).1 = .error e)
    ∧ (EditFile ⟨"f.txt", "xyz", "q"⟩
        (fun p => if p = "f.txt" then some "hello" else none)).2
      = (fun p => if p = "f.txt" then some "hello" else none) :=
  editFile_missing_old_str_fails_unchanged ⟨"f.txt", "xyz", "q"⟩
    (fun p => if p = "f.txt" then some "hello" else none) "hello"
    (by decide) (by decide) (by decide)

/-- C6 counterexample: the claim quantifies over *every* `edit_file` call
with empty `old_str` against a missing path, but with `new_str = ""` (so
`old_str = new_str`) or with the empty path the call hits the
invalid-input guard and creates nothing. -/
theorem editFile_create_rejects_equal_or_empty :
    (EditFile ⟨"newfile.txt", "", ""⟩ fsEmpty).1 = .error "invalid input parameters"
    ∧ (EditFile ⟨"newfile.txt", "", ""⟩ fsEmpty).2 "newfile.txt" = none
    ∧ (EditFile ⟨"", "", "x"⟩ fsEmpty).1 = .error "invalid input parameters" := by
  exact ⟨rfl, rfl, rfl⟩

/-- C6 (amended): an `edit_file` call with empty `old_str`, a non-empty
path at which no file exists, and non-empty `new_str` creates the file at
that path with content exactly `new_str` (parent directories are created by
`createNewFile` and are implicit in the path-to-content model). -/
theorem editFile_creates_new_file
    (editFileInput : EditFileInput) (fs : FS)
    (hpath : editFileInput.path ≠ "") (hold : editFileInput.old_str = "")
    (hnew : editFileInput.new_str ≠ "")
    (habsent : fs editFileInput.path = none) :
    (EditFile editFileInput fs).1 = .ok ("Successfully created file " ++ editFileInput.path)
    ∧ (EditFile editFileInput fs).2 editFileInput.path = some editFileInput.new_str := by
  unfold EditFile createNewFile
  have hne : ¬ (editFileInput.path = "" ∨ editFileInput.old_str = editFileInput.new_str) := by
    push_neg
    exact ⟨hpath, by rw [hold]; exact fun he => hnew he.symm⟩
  rw [if_neg hne, habsent, if_pos hold]
  exact ⟨rfl, by simp⟩

/-- Witness for C6 (amended): creating `a/b.txt` in the empty
filesystem. -/
theorem editFile_creates_new_file_witness :
    (EditFile ⟨"a/b.txt", "", "hi"⟩ fsEmpty).1 = .ok "Successfully created file a/b.txt"
    ∧ (EditFile ⟨"a/b.txt", "", "hi"⟩ fsEmpty).2 "a/b.txt" = some "hi" :=
  editFile_creates_new_file ⟨"a/b.txt", "", "hi"⟩ fsEmpty (by decide) rfl (by decide) rfl

/-- C7: for every dynamic tool and declared parameter, the resolution loop
binds the supplied value if present, else the non-empty declared default,
else fails with a missing-required-parameter error when the parameter is
required, else omits the parameter from the bindings (declared names
pairwise distinct). -/
theorem resolveParams_resolution
    (params : List ToolParameter) (supplied : String → Option String)
    (hnodup : (params.map (fun q => q.name)).Nodup)
    (p : ToolParameter) (hp : p ∈ params) :
    (∀ v, supplied p.name = some v →
        ∀ l, resolveParams params supplied = .ok l → (p.name, v) ∈ l)
    ∧ (supplied p.name = none → p.default ≠ "" →
        ∀ l, resolveParams params supplied = .ok l → (p.name, p.default) ∈ l)
    ∧ (supplied p.name = none → p.default = "" → p.required = true →
        ∃ q, resolveParams params supplied = .error ("missing required parameter: " ++ q))
    ∧ (supplied p.name = none → p.default = "" → p.required = false →
        ∀ l, resolveParams params supplied = .ok l → ∀ v, (p.name, v) ∉ l) :=
  ⟨fun v hv => resolveParams_supplied supplied params p hp v hv,
   fun hv hd => resolveParams_default supplied params p hp hv hd,
   fun hv hd hr => resolveParams_required_missing supplied params p hp hv hd hr,
   fun hv hd hr => resolveParams_omitted supplied params hnodup p hp hv hd hr⟩

/-- Witness for C7: one required parameter `x` with empty default, invoked
with no supplied parameters, fails with the missing-required-parameter
error. -/
theorem resolveParams_resolution_witness :
    ∃ q, resolveParams [⟨"x", "the x parameter", true, ""⟩] (fun _ => none)
      = .error ("missing required parameter: " ++ q) :=
  (resolveParams_resolution [⟨"x", "the x parameter", true, ""⟩] (fun _ => none)
    (by decide) ⟨"x", "the x parameter", true, ""⟩ (by decide)).2.2.1 rfl rfl rfl

/-- C8: when the model response carries at least one `tool_use` block, the
loop iteration appends (after the assistant message) exactly one user-role
message whose blocks are the dispatched tool results, one per call in
emission order, and ends with `readUserInput = false`, so the next
iteration returns to the model call without prompting the user. -/
theorem dispatch_appends_single_results_message
    (userInput : String) (readUserInput : Bool)
    (exec : String → String → String → ParamBlock)
    (conversation : List MessageParam) (message : APIMessage)
    (h : toolUses message.content ≠ []) :
    runStep (some userInput) (fun _ => .ok message) exec conversation readUserInput
      = .next
          ((if readUserInput then conversation ++ [⟨.user, [.textB userInput]⟩] else conversation)
            ++ [toParam message,
                ⟨.user, (toolUses message.content).map fun t => exec t.1 t.2.1 t.2.2⟩])
          false := by
  have hres : ((toolUses message.content).map fun t => exec t.1 t.2.1 t.2.2) ≠ [] := by
    simpa using h
  unfold runStep
  cases readUserInput with
  | false => simp [collectToolResults_eq, hres, h]
  | true => simp [collectToolResults_eq, hres, h]

/-- Witness for C8: a response with one `tool_use` block. -/
theorem dispatch_appends_single_results_message_witness :
    runStep (some "hi") (fun _ => .ok ⟨[.toolUse "t1" "read_file" "x"]⟩)
      (fun id _ _ => .toolResultB id "out" false) [] true
      = .next
          (([] ++ [⟨.user, [.textB "hi"]⟩])
            ++ [toParam ⟨[.toolUse "t1" "read_file" "x"]⟩,
                ⟨.user, (toolUses [.toolUse "t1" "read_file" "x"]).map
                  fun t => (fun id _ _ => ParamBlock.toolResultB id "out" false) t.1 t.2.1 t.2.2⟩])
          false :=
  dispatch_appends_single_results_message "hi" true
    (fun id _ _ => .toolResultB id "out" false) [] ⟨[.toolUse "t1" "read_file" "x"]⟩
    (by decide)

/-- C9: an `edit_file` call with empty `old_str` and non-empty `new_str`
against an existing file with non-empty content succeeds and rewrites the
file with `new_str` inserted before every character of the original
content and once at the end (the empty-separator semantics of
`strings.Replace`), rather than failing or overwriting the file with
`new_str`. -/
theorem editFile_empty_old_str_interleaves
    (editFileInput : EditFileInput) (fs : FS) (content : String)
    (hpath : editFileInput.path ≠ "") (hold : editFileInput.old_str = "")
    (hnew : editFileInput.new_str ≠ "")
    (hfile : fs editFileInput.path = some content) (hcontent : content ≠ "") :
    (EditFile editFileInput fs).1 = .ok "OK"
    ∧ (EditFile editFileInput fs).2 editFileInput.path
        = some ⟨editFileInput.new_str.data ++ interleave editFileInput.new_str.data content.data⟩ := by
  unfold EditFile
  have hne : ¬ (editFileInput.path = "" ∨ editFileInput.old_str = editFileInput.new_str) := by
    push_neg
    exact ⟨hpath, by rw [hold]; exact fun he => hnew he.symm⟩
  rw [if_neg hne]
  simp only [hfile]
  have hcond : ¬ (content = goStringsReplace content editFileInput.old_str editFileInput.new_str
      ∧ editFileInput.old_str ≠ "") := by
    rintro ⟨-, hne'⟩
    exact hne' hold
  rw [if_neg hcond]
  refine ⟨rfl, ?_⟩
  rw [hold]
  simp [goStringsReplace_empty_old]

/-- Witness for C9: editing `"ab"` with `old_str = ""`, `new_str = "X"`. -/
theorem editFile_empty_old_str_interleaves_witness :
    (EditFile ⟨"f.txt", "", "X"⟩ (fun p => if p = "f.txt" then some "ab" else none)).1 = .ok "OK"
    ∧ (EditFile ⟨"f.txt", "", "X"⟩ (fun p => if p = "f.txt" then some "ab" else none)).2 "f.txt"
        = some ⟨"X".data ++ interleave "X".data "ab".data⟩ :=
  editFile_empty_old_str_interleaves ⟨"f.txt", "", "X"⟩
    (fun p => if p = "f.txt" then some "ab" else none) "ab"
    (by decide) rfl (by decide) (by decide) (by decide)

/-- C10: a `grep` invocation whose `pattern` field is the empty string
fails with an error before the pattern is ever compiled, even though the
empty pattern is a valid regular expression. -/
theorem grep_empty_pattern_fails
    (grepInput : GrepInput) (compile : String → Option (String → Bool)) (root : List FSEntry)
    (h : grepInput.pattern = "") :
    Grep grepInput compile root = .error "pattern cannot be empty" := by
  unfold Grep
  rw [if_pos h]

/-- Witness for C10: the empty pattern with a compiler that would accept
it (matching every line). -/
theorem grep_empty_pattern_fails_witness :
    Grep ⟨"", "", false, false, []⟩ (fun _ => some (fun _ => true)) nodeModulesTree
      = .error "pattern cannot be empty" :=
  grep_empty_pattern_fails ⟨"", "", false, false, []⟩ (fun _ => some (fun _ => true))
    nodeModulesTree rfl
